import Mathlib

set_option autoImplicit false

namespace HSIApp

/-! Shallow embedding of the hsi-strategy-app trading core: the trade
simulator (frontend/backend/app/trading/simulator.py), the indicator engine
(backend/app/services/indicators.py), the moving-average and MACD strategies
(backend/app/strategies/moving_average.py, macd.py,
frontend/backend/app/strategies/ma_cross_strategy.py) and the performance
statistics (backend/app/strategies/statistics.py).  Machine floats are
idealised as exact rationals; where the Python code can produce non-finite
IEEE values (division by zero, NaN warm-up cells) the embedding uses the
extended type `EF` below with IEEE-754 special-value rules. -/

/-- Extended float value: a finite rational, one of the two infinities, or
NaN.  Sign of zero is not tracked (the code under verification never divides
by a negative zero it produced). -/
inductive EF where
  | fin : ℚ → EF
  | pinf : EF
  | ninf : EF
  | nan : EF
deriving DecidableEq, Repr

/-- IEEE negation. -/
def EF.neg : EF → EF
  | .fin a => .fin (-a)
  | .pinf => .ninf
  | .ninf => .pinf
  | .nan => .nan

/-- IEEE addition: NaN propagates, opposite infinities give NaN. -/
def EF.add : EF → EF → EF
  | .nan, _ => .nan
  | .fin a, .fin b => .fin (a + b)
  | .fin _, .pinf => .pinf
  | .fin _, .ninf => .ninf
  | .fin _, .nan => .nan
  | .pinf, .fin _ => .pinf
  | .ninf, .fin _ => .ninf
  | .pinf, .pinf => .pinf
  | .ninf, .ninf => .ninf
  | .pinf, .ninf => .nan
  | .ninf, .pinf => .nan
  | .pinf, .nan => .nan
  | .ninf, .nan => .nan

/-- IEEE subtraction. -/
def EF.sub (a b : EF) : EF := a.add b.neg

/-- IEEE multiplication: NaN propagates, zero times infinity is NaN. -/
def EF.mul : EF → EF → EF
  | .nan, _ => .nan
  | .fin a, .fin b => .fin (a * b)
  | .fin a, .pinf => if 0 < a then .pinf else if a < 0 then .ninf else .nan
  | .fin a, .ninf => if 0 < a then .ninf else if a < 0 then .pinf else .nan
  | .fin _, .nan => .nan
  | .pinf, .fin b => if 0 < b then .pinf else if b < 0 then .ninf else .nan
  | .ninf, .fin b => if 0 < b then .ninf else if b < 0 then .pinf else .nan
  | .pinf, .pinf => .pinf
  | .pinf, .ninf => .ninf
  | .ninf, .pinf => .ninf
  | .ninf, .ninf => .pinf
  | .pinf, .nan => .nan
  | .ninf, .nan => .nan

/-- IEEE division: NaN propagates, a nonzero finite value over zero gives a
signed infinity, zero over zero and infinity over infinity give NaN. -/
def EF.div : EF → EF → EF
  | .nan, _ => .nan
  | .fin a, .fin b =>
      if b = 0 then (if 0 < a then .pinf else if a < 0 then .ninf else .nan)
      else .fin (a / b)
  | .fin _, .pinf => .fin 0
  | .fin _, .ninf => .fin 0
  | .fin _, .nan => .nan
  | .pinf, .fin b => if b < 0 then .ninf else .pinf
  | .ninf, .fin b => if b < 0 then .pinf else .ninf
  | .pinf, .nan => .nan
  | .ninf, .nan => .nan
  | .pinf, .pinf => .nan
  | .pinf, .ninf => .nan
  | .ninf, .pinf => .nan
  | .ninf, .ninf => .nan

/-- IEEE strict comparison: any comparison against NaN is false. -/
def EF.ltB : EF → EF → Bool
  | .nan, _ => false
  | _, .nan => false
  | .fin a, .fin b => decide (a < b)
  | .fin _, .pinf => true
  | .fin _, .ninf => false
  | .pinf, _ => false
  | .ninf, .pinf => true
  | .ninf, .fin _ => true
  | .ninf, .ninf => false

/-- Finiteness test: true exactly on `fin` values. -/
def EF.isFinite : EF → Bool
  | .fin _ => true
  | _ => false

/-- Power with a rational exponent, modelling numpy float power exactly where
the result is rational: NaN propagates, an infinite base follows IEEE rules,
a finite base with an integer exponent is evaluated exactly, and a finite
base with a non-integer exponent (irrational in general, hence not
representable in ℚ) is mapped to NaN.  No theorem below depends on the
non-integer-exponent branch. -/
def EF.powQ : EF → ℚ → EF
  | .nan, _ => .nan
  | .pinf, e => if 0 < e then .pinf else if e = 0 then .fin 1 else .fin 0
  | .ninf, e => if 0 < e then .pinf else if e = 0 then .fin 1 else .fin 0
  | .fin b, e =>
      if e.den = 1 then
        (if b = 0 ∧ e.num < 0 then .pinf else .fin (b ^ e.num))
      else .nan

/-- Exact square root on ℚ, the embedding of numpy sqrt restricted to inputs
whose square root is rational: a negative input gives NaN (as numpy does), a
nonnegative rational that is the square of a rational gives that exact root,
and an input with an irrational root (not representable in ℚ) is mapped to
NaN.  No theorem below depends on the irrational branch. -/
def ratSqrtEF (q : ℚ) : EF :=
  if q < 0 then .nan
  else
    if Nat.sqrt q.num.toNat * Nat.sqrt q.num.toNat = q.num.toNat ∧
       Nat.sqrt q.den * Nat.sqrt q.den = q.den then
      .fin ((Nat.sqrt q.num.toNat : ℚ) / (Nat.sqrt q.den : ℚ))
    else .nan

/-- Maximum of a list of EF values with pandas skipna semantics: NaN entries
are ignored; an empty or all-NaN list gives NaN. -/
def maxEFskipna (l : List EF) : EF :=
  l.foldl (fun acc x =>
    match acc, x with
    | .nan, v => v
    | a, .nan => a
    | a, v => if EF.ltB a v then v else a) .nan

/-- Arithmetic mean of a rational list (sum over length). -/
def listMean (xs : List ℚ) : ℚ := xs.sum / (xs.length : ℚ)

/-- Sample variance (denominator length − 1, the pandas std default ddof=1). -/
def sampleVar (xs : List ℚ) : ℚ :=
  ((xs.map (fun x => (x - listMean xs) ^ 2)).sum) / ((xs.length : ℚ) - 1)

/-- Trailing window of length `period` ending at index `i` inclusive. -/
def windowAt (xs : List ℚ) (period i : ℕ) : List ℚ :=
  (xs.take (i + 1)).drop (i + 1 - period)

/-- First-match association-list lookup, the embedding of a Python dict read. -/
def alookup {α : Type} : List (String × α) → String → Option α
  | [], _ => none
  | (k, v) :: rest, sym => if k = sym then some v else alookup rest sym

/-! The trade simulator, frontend/backend/app/trading/simulator.py. -/

/-- Side of a trade record. -/
inductive Side where
  | buy
  | sell
deriving DecidableEq, Repr

/-- One entry of TradingSimulator.trade_log (the dicts appended by buy/sell).
The amount field is the cost of a buy and the proceeds of a sell; timestamps
are not modelled (they affect no claim). -/
structure TradeRec where
  side : Side
  symbol : String
  price : ℚ
  quantity : ℚ
  amount : ℚ
  remaining_cash : ℚ
deriving DecidableEq, Repr

/-- State of a TradingSimulator: initial_cash, cash, positions (a Python
dict, modelled as an insertion-ordered association list) and trade_log. -/
structure TradingSimulator where
  initial_cash : ℚ
  cash : ℚ
  positions : List (String × ℚ)
  trade_log : List TradeRec
deriving DecidableEq, Repr

/-- Python dict update positions[symbol] += quantity (simulator.py buy): an
existing key keeps its place and a new key is appended, as insertion-ordered
dicts do. -/
def addPos : List (String × ℚ) → String → ℚ → List (String × ℚ)
  | [], sym, q => [(sym, q)]
  | (k, v) :: rest, sym, q =>
      if k = sym then (k, v + q) :: rest else (k, v) :: addPos rest sym q

/-- positions[symbol] -= quantity followed by deletion of the entry when it
reaches exactly zero (simulator.py sell). -/
def subPos : List (String × ℚ) → String → ℚ → List (String × ℚ)
  | [], _, _ => []
  | (k, v) :: rest, sym, q =>
      if k = sym then (if v - q = 0 then rest else (k, v - q) :: rest)
      else (k, v) :: subPos rest sym q

/-- TradingSimulator.buy (simulator.py 44-98): cost = price · quantity; raises
(ValueError, modelled as Except.error) when cost exceeds cash; otherwise
debits cash, credits the holding and appends a trade record. -/
def TradingSimulator.buy (st : TradingSimulator) (sym : String)
    (price quantity : ℚ) : Except String TradingSimulator :=
  let cost := price * quantity
  if st.cash < cost then .error "InsufficientFunds"
  else
    .ok { st with
      cash := st.cash - cost
      positions := addPos st.positions sym quantity
      trade_log := st.trade_log ++
        [⟨Side.buy, sym, price, quantity, cost, st.cash - cost⟩] }

/-- TradingSimulator.sell (simulator.py 100-159): raises KeyError when the
symbol is not held, ValueError when the held quantity is smaller than the
requested one; otherwise credits cash, debits the holding (deleting it at
zero) and appends a trade record. -/
def TradingSimulator.sell (st : TradingSimulator) (sym : String)
    (price quantity : ℚ) : Except String TradingSimulator :=
  match alookup st.positions sym with
  | none => .error "UnknownPosition"
  | some held =>
      if held < quantity then .error "InsufficientPosition"
      else
        let proceeds := price * quantity
        .ok { st with
          cash := st.cash + proceeds
          positions := subPos st.positions sym quantity
          trade_log := st.trade_log ++
            [⟨Side.sell, sym, price, quantity, proceeds, st.cash + proceeds⟩] }

/-- TradingSimulator.reset (simulator.py 233-239). -/
def TradingSimulator.reset (st : TradingSimulator) : TradingSimulator :=
  { st with cash := st.initial_cash, positions := [], trade_log := [] }

/-- Result of TradingSimulator.get_performance_summary. -/
structure PerformanceSummary where
  total_trades : ℕ
  buy_trades : ℕ
  sell_trades : ℕ
  cash_change : ℚ
  cash_change_percent : ℚ
deriving DecidableEq, Repr

/-- TradingSimulator.get_performance_summary (simulator.py 241-271): trade
counts split by side, absolute cash change, and percentage change guarded by
the initial_cash ≠ 0 test. -/
def TradingSimulator.get_performance_summary (st : TradingSimulator) :
    PerformanceSummary :=
  { total_trades := st.trade_log.length
    buy_trades := (st.trade_log.filter (fun t => t.side == Side.buy)).length
    sell_trades := (st.trade_log.filter (fun t => t.side == Side.sell)).length
    cash_change := st.cash - st.initial_cash
    cash_change_percent :=
      if st.initial_cash ≠ 0 then (st.cash - st.initial_cash) / st.initial_cash * 100
      else 0 }

/-- Result of TradingSimulator.get_portfolio_value; the per-symbol detail dict
is not modelled (a symbol absent from current_prices contributes its
"unknown" marker there and nothing to positions_value, which is what the
positions_value sum below reproduces). -/
structure PortfolioValue where
  cash : ℚ
  positions_value : ℚ
  total_value : ℚ
deriving DecidableEq, Repr

/-- TradingSimulator.get_portfolio_value (simulator.py 161-209). -/
def TradingSimulator.get_portfolio_value (st : TradingSimulator)
    (current_prices : List (String × ℚ)) : PortfolioValue :=
  let positions_value :=
    (st.positions.map (fun kv =>
      match alookup current_prices kv.1 with
      | some p => kv.2 * p
      | none => 0)).sum
  { cash := st.cash
    positions_value := positions_value
    total_value := st.cash + positions_value }

/-- One row of the frame consumed by TradingSimulator.simulate, holding the
price-column value and the signal-column value of that date.  A SimRow list
is the extracted content of a frame that has both required columns. -/
structure SimRow where
  price : ℚ
  signal : String
deriving DecidableEq, Repr

/-- One iteration of the simulate loop (simulator.py 322-345): a BUY signal
attempts a buy; a SELL signal with the symbol held attempts a partial sell of
min(quantity, held) when that is positive; ledger errors raised by buy/sell
are swallowed (the try/except pass) leaving the state unchanged; any other
signal is a no-op. -/
def TradingSimulator.simStep (sym : String) (quantity : ℚ)
    (st : TradingSimulator) (row : SimRow) : TradingSimulator :=
  if row.signal = "BUY" then
    match st.buy sym row.price quantity with
    | .ok st' => st'
    | .error _ => st
  else if row.signal = "SELL" then
    match alookup st.positions sym with
    | some held =>
        if 0 < min quantity held then
          match st.sell sym row.price (min quantity held) with
          | .ok st' => st'
          | .error _ => st
        else st
    | none => st
  else st

/-- Report returned by TradingSimulator.simulate. -/
structure SimResult where
  final_cash : ℚ
  final_positions : List (String × ℚ)
  portfolio_value : PortfolioValue
  total_trades : ℕ
  performance : PerformanceSummary
deriving DecidableEq, Repr

/-- TradingSimulator.simulate (simulator.py 284-364): reset the ledger,
iterate the rows with simStep, then read the LAST price of the frame
(df[price_column].iloc[-1], an IndexError on an empty frame, modelled as
Except.error) and assemble the result report. -/
def TradingSimulator.simulate (st0 : TradingSimulator) (rows : List SimRow)
    (sym : String) (quantity : ℚ) : Except String SimResult :=
  let stFinal := rows.foldl (TradingSimulator.simStep sym quantity) st0.reset
  match rows.getLast? with
  | none => .error "IndexError"
  | some lastRow =>
      .ok { final_cash := stFinal.cash
            final_positions := stFinal.positions
            portfolio_value := stFinal.get_portfolio_value [(sym, lastRow.price)]
            total_trades := stFinal.trade_log.length
            performance := stFinal.get_performance_summary }

/-! The indicator engine: moving averages (moving_average.py 15-98), MACD
(indicators.py 83-143) and Bollinger Bands (indicators.py 11-80). -/

/-- Tail of the pandas ewm(span, adjust=False).mean() recursion: each output
is alpha · value + (1 − alpha) · previous output. -/
def emaRec (a prev : ℚ) : List ℚ → List ℚ
  | [] => []
  | x :: xs => (a * x + (1 - a) * prev) :: emaRec a (a * x + (1 - a) * prev) xs

/-- pandas Series.ewm(span=period, adjust=False).mean(): smoothing factor
2/(period+1), seeded with the first value, defined at every index. -/
def ewmMean (prices : List ℚ) (period : ℕ) : List ℚ :=
  match prices with
  | [] => []
  | x :: xs => x :: emaRec (2 / ((period : ℚ) + 1)) x xs

/-- calculate_ema (moving_average.py 58-98) computes exactly
ewm(span=period, adjust=False).mean() on the chosen column. -/
def calculate_ema (prices : List ℚ) (period : ℕ) : List ℚ := ewmMean prices period

/-- calculate_sma (moving_average.py 15-55): pandas
rolling(window=period).mean(); the value at index i is NaN (none) while
i + 1 < period and otherwise the arithmetic mean of the trailing period
points. -/
def calculate_sma (prices : List ℚ) (period : ℕ) : List (Option ℚ) :=
  (List.range prices.length).map (fun i =>
    if i + 1 < period then none else some (listMean (windowAt prices period i)))

/-- MACD columns added by macd (indicators.py): macd, macd_signal,
macd_histogram. -/
structure MACDResult where
  macd_line : List ℚ
  macd_signal : List ℚ
  macd_histogram : List ℚ
deriving DecidableEq, Repr

/-- macd (indicators.py 83-143): fails (ValueError) only when the column is
absent from the frame; computes fast EMA − slow EMA, its EMA as the signal
line, and their difference as the histogram.  Note the function performs NO
validation of fast_period against slow_period. -/
def macd (df : List (String × List ℚ)) (fast_period slow_period signal_period : ℕ)
    (column : String) : Except String MACDResult :=
  match alookup df column with
  | none => .error "ValueError"
  | some prices =>
      let fast_ema := ewmMean prices fast_period
      let slow_ema := ewmMean prices slow_period
      let macd_line := List.zipWith (fun a b => a - b) fast_ema slow_ema
      let signal_line := ewmMean macd_line signal_period
      .ok { macd_line := macd_line
            macd_signal := signal_line
            macd_histogram := List.zipWith (fun a b => a - b) macd_line signal_line }

/-- Configuration kept by a successfully constructed MACDStrategy. -/
structure MACDStrategyCfg where
  fast_period : ℕ
  slow_period : ℕ
  signal_period : ℕ
deriving DecidableEq, Repr

/-- MACDStrategy.__init__ (macd.py 166-194): raises InvalidParameters
(ValueError) when fast_period ≥ slow_period, otherwise stores the periods. -/
def mkMACDStrategy (fast_period slow_period signal_period : ℕ) :
    Except String MACDStrategyCfg :=
  if slow_period ≤ fast_period then .error "InvalidParameters"
  else .ok ⟨fast_period, slow_period, signal_period⟩

/-- bb_middle value at index i: the rolling mean, NaN during warm-up
(indicators.py line 65). -/
def bbMiddleAt (prices : List ℚ) (period i : ℕ) : EF :=
  if i + 1 < period then .nan else .fin (listMean (windowAt prices period i))

/-- bb_std value at index i: the rolling sample standard deviation, NaN
during warm-up and for a window of one point, whose sample variance has zero
degrees of freedom (indicators.py line 68). -/
def bbStdAt (prices : List ℚ) (period i : ℕ) : EF :=
  if i + 1 < period ∨ period < 2 then .nan
  else ratSqrtEF (sampleVar (windowAt prices period i))

/-- bb_upper value at index i: middle + std · k (indicators.py line 71). -/
def bbUpperAt (prices : List ℚ) (period : ℕ) (std_dev : ℚ) (i : ℕ) : EF :=
  EF.add (bbMiddleAt prices period i) (EF.mul (bbStdAt prices period i) (.fin std_dev))

/-- bb_lower value at index i: middle − std · k (indicators.py line 72). -/
def bbLowerAt (prices : List ℚ) (period : ℕ) (std_dev : ℚ) (i : ℕ) : EF :=
  EF.sub (bbMiddleAt prices period i) (EF.mul (bbStdAt prices period i) (.fin std_dev))

/-- bb_width value at index i: (upper − lower) / middle, a plain IEEE
division with no special case at middle = 0 (indicators.py line 75). -/
def bbWidthAt (prices : List ℚ) (period : ℕ) (std_dev : ℚ) (i : ℕ) : EF :=
  EF.div (EF.sub (bbUpperAt prices period std_dev i) (bbLowerAt prices period std_dev i))
    (bbMiddleAt prices period i)

/-- Columns returned by bollinger_bands (the temporary bb_std column is
dropped by the source, indicators.py line 78). -/
structure BollingerResult where
  bb_middle : List EF
  bb_upper : List EF
  bb_lower : List EF
  bb_width : List EF
deriving DecidableEq, Repr

/-- bollinger_bands (indicators.py 11-80); the pandas column operations are
pointwise, so each column is the per-index function mapped over the index
range. -/
def bollinger_bands (prices : List ℚ) (period : ℕ) (std_dev : ℚ) : BollingerResult :=
  { bb_middle := (List.range prices.length).map (bbMiddleAt prices period)
    bb_upper := (List.range prices.length).map (bbUpperAt prices period std_dev)
    bb_lower := (List.range prices.length).map (bbLowerAt prices period std_dev)
    bb_width := (List.range prices.length).map (bbWidthAt prices period std_dev) }

/-! Crossover detection (moving_average.py: detect_sma_cross 101-193 and
MovingAverageStrategy.detect_crossover 361-391 share the same core: shifted
difference and current difference strictly on opposite sides of zero). -/

/-- Type of a crossover event. -/
inductive CrossType where
  | golden
  | death
deriving DecidableEq, Repr

/-- Elementwise difference fast − slow of two aligned indicator columns;
NaN (none) propagates as in pandas. -/
def diffSeries (fast slow : List (Option ℚ)) : List (Option ℚ) :=
  List.zipWith (fun a b =>
    match a, b with
    | some x, some y => some (x - y)
    | _, _ => none) fast slow

/-- Value of a column at index t; NaN (none) out of range. -/
def colAt (xs : List (Option ℚ)) (t : ℕ) : Option ℚ := (xs[t]?).join

/-- Value of the shift(1) of a column at index t: the value at t − 1, NaN at
index 0. -/
def prevAt (xs : List (Option ℚ)) : ℕ → Option ℚ
  | 0 => none
  | t + 1 => colAt xs t

/-- pandas comparison x < 0 on a possibly-NaN cell: false on NaN. -/
def oltZ : Option ℚ → Bool
  | some x => decide (x < 0)
  | none => false

/-- pandas comparison x > 0 on a possibly-NaN cell: false on NaN. -/
def ogtZ : Option ℚ → Bool
  | some x => decide (0 < x)
  | none => false

/-- The chronological crossover event list: the golden_cross mask is
prev_diff < 0 and curr_diff > 0, the death_cross mask is prev_diff > 0 and
curr_diff < 0, and the events are collected by a single forward pass over the
masked rows in index order (moving_average.py 167-193 and 377-391). -/
def detectCrossovers (fast slow : List (Option ℚ)) : List (ℕ × CrossType) :=
  let d := diffSeries fast slow
  (List.range d.length).filterMap (fun t =>
    if oltZ (prevAt d t) && ogtZ (colAt d t) then some (t, CrossType.golden)
    else if ogtZ (prevAt d t) && oltZ (colAt d t) then some (t, CrossType.death)
    else none)

/-- detect_sma_cross (moving_average.py 101-193): the crossover pass applied
to the short-period and long-period rolling means of the price column. -/
def detect_sma_cross (prices : List ℚ) (short_period long_period : ℕ) :
    List (ℕ × CrossType) :=
  detectCrossovers (calculate_sma prices short_period) (calculate_sma prices long_period)

/-! The position scan (ma_cross_strategy.py MACrossStrategy.generate_position
184-215) and its statement-level state machine. -/

/-- Per-date trading signal. -/
inductive Signal where
  | buySig
  | holdSig
  | sellSig
deriving DecidableEq, Repr

/-- Per-date position. -/
inductive Position where
  | long
  | flat
  | short
deriving DecidableEq, Repr

/-- Integer encoding of a signal used by the source: 1 buy, 0 hold, −1 sell. -/
def Signal.toInt : Signal → ℤ
  | .buySig => 1
  | .holdSig => 0
  | .sellSig => -1

/-- Integer encoding of a position used by the source: 1 long, 0 flat,
−1 short. -/
def Position.toInt : Position → ℤ
  | .long => 1
  | .flat => 0
  | .short => -1

/-- Loop body of generate_position: a signal 1 with position ≤ 0 moves to 1,
a signal −1 with position ≥ 0 moves to −1, anything else keeps the
position. -/
def positionStep (pos s : ℤ) : ℤ :=
  if s = 1 ∧ pos ≤ 0 then 1
  else if s = -1 ∧ 0 ≤ pos then -1
  else pos

/-- The stateful scan of generate_position, recording the position after
each row. -/
def positionScan (pos : ℤ) : List ℤ → List ℤ
  | [] => []
  | s :: rest => positionStep pos s :: positionScan (positionStep pos s) rest

/-- MACrossStrategy.generate_position (ma_cross_strategy.py 184-215): the
scan started at position 0. -/
def generate_position (signals : List ℤ) : List ℤ := positionScan 0 signals

/-- Modelled from the spec wording of the claim (PositionTracker, spec §4.3),
for comparison with the source scan: Buy while Flat or Short goes Long, Buy
while Long is a no-op, Sell while Flat or Long goes Short with no
intermediate Flat, Sell while Short is a no-op, Hold carries the position
forward. -/
def specPositionStep : Position → Signal → Position
  | .flat, .buySig => .long
  | .short, .buySig => .long
  | .long, .buySig => .long
  | .flat, .sellSig => .short
  | .long, .sellSig => .short
  | .short, .sellSig => .short
  | p, .holdSig => p

/-- The spec-side scan over Signal values, started at Flat. -/
def specPositionScan (p : Position) : List Signal → List Position
  | [] => []
  | s :: rest => specPositionStep p s :: specPositionScan (specPositionStep p s) rest

/-! The performance statistics, backend/app/strategies/statistics.py
evaluate_strategy (12-135).  The frame index of the modelled tables is a
plain integer range, the branch of the source in which elapsed days equal
the row count; the claims under verification do not involve date indexing. -/

/-- One row of the evaluate_strategy input frame: columns position, returns,
strategy_returns, capital. -/
structure StratRow where
  position : ℚ
  returns : ℚ
  strategy_returns : ℚ
  capital : ℚ
deriving DecidableEq, Repr

/-- The report assembled by evaluate_strategy; sharpe is the sharpe-ratio
entry of the source's result dict. -/
structure PerformanceReport where
  total_return : EF
  annual_return : EF
  max_drawdown : EF
  trade_count : ℕ
  win_rate : ℚ
  sharpe : EF
  volatility : EF
deriving DecidableEq, Repr

/-- Running maximum (pandas cummax) continued from m. -/
def cummaxFrom (m : ℚ) : List ℚ → List ℚ
  | [] => []
  | x :: xs => max m x :: cummaxFrom (max m x) xs

/-- pandas Series.cummax. -/
def cummax : List ℚ → List ℚ
  | [] => []
  | x :: xs => x :: cummaxFrom x xs

/-- position.diff().fillna(0): first entry 0, then consecutive differences. -/
def positionChanges (rows : List StratRow) : List ℚ :=
  match rows with
  | [] => []
  | _ :: rest =>
      0 :: List.zipWith (fun a b => b.position - a.position) rows rest

/-- evaluate_strategy (statistics.py 12-135), in the order of the source:
total_return guarded by emptiness, annual_return guarded by len > 1 with
exponent 252/max(days, 1), max_drawdown from the capital cummax (a skipna
max), trade_count the number of nonzero position changes when len > 1,
win_rate the fraction of change rows with positive strategy_returns when
trade_count > 0, sharpe guarded by volatility > 0, volatility the annualised
sample standard deviation (std · sqrt 252, written as the square root of
252 · variance, equal as real numbers since the variance is nonnegative) when
len > 1. -/
def evaluate_strategy (rows : List StratRow) : PerformanceReport :=
  let n := rows.length
  let caps := rows.map StratRow.capital
  let total_return : EF :=
    if 0 < n then
      EF.sub (EF.div (.fin (((rows.getLast?).map StratRow.capital).getD 0))
        (.fin (((rows.head?).map StratRow.capital).getD 0))) (.fin 1)
    else .fin 0
  let annual_return : EF :=
    if 1 < n then
      EF.sub (EF.powQ (EF.add (.fin 1) total_return) ((252 : ℚ) / ((max n 1 : ℕ) : ℚ)))
        (.fin 1)
    else .fin 0
  let max_drawdown : EF :=
    if 0 < n then
      maxEFskipna (List.zipWith (fun rm c => EF.div (.fin (rm - c)) (.fin rm)) (cummax caps) caps)
    else .fin 0
  let changes := positionChanges rows
  let trade_count : ℕ := if 1 < n then (changes.filter (fun x => x != 0)).length else 0
  let win_rate : ℚ :=
    if 0 < trade_count then
      (((List.zip changes rows).filter (fun p => p.1 != 0)).filter
        (fun p => decide (0 < p.2.strategy_returns))).length / (trade_count : ℚ)
    else 0
  let volatility : EF :=
    if 1 < n then ratSqrtEF (sampleVar (rows.map StratRow.strategy_returns) * 252)
    else .fin 0
  let sharpe : EF :=
    if 1 < n then
      (if EF.ltB (.fin 0) volatility then
        EF.div (EF.sub annual_return (.fin (2 / 100))) volatility
      else .fin 0)
    else .fin 0
  { total_return := total_return
    annual_return := annual_return
    max_drawdown := max_drawdown
    trade_count := trade_count
    win_rate := win_rate
    sharpe := sharpe
    volatility := volatility }

/-! Theorems.  Each claim of the verification is settled by exactly one
theorem below (with a witness where the statement carries hypotheses and a
counterexample where the original claim fails on the code). -/

/-- Success test for the Except-modelled raising functions. -/
def isOkE {ε α : Type} : Except ε α → Bool
  | .ok _ => true
  | .error _ => false

/-- C10: get_performance_summary never divides by zero: when initial_cash is
0 the cash_change_percent field is 0, and when initial_cash is nonzero it is
(cash − initial_cash) / initial_cash · 100. -/
theorem performance_summary_pct (st : TradingSimulator) :
    (st.initial_cash = 0 → st.get_performance_summary.cash_change_percent = 0) ∧
    (st.initial_cash ≠ 0 → st.get_performance_summary.cash_change_percent =
      (st.cash - st.initial_cash) / st.initial_cash * 100) := by
  constructor <;> intro h <;>
    simp [TradingSimulator.get_performance_summary, h]

theorem performance_summary_pct_witness :
    ((⟨0, 5, [], []⟩ : TradingSimulator).get_performance_summary.cash_change_percent
        = 0) ∧
    ((⟨100, 150, [], []⟩ : TradingSimulator).get_performance_summary.cash_change_percent
        = (150 - 100) / 100 * 100) :=
  ⟨(performance_summary_pct ⟨0, 5, [], []⟩).1 rfl,
   (performance_summary_pct ⟨100, 150, [], []⟩).2 (by norm_num)⟩

/-- C4 counterexample: with fast_period = 12 ≥ slow_period = 9 the macd
function does NOT fail: called on a frame that has the close column it
succeeds, computing the indicator columns, contradicting the claim that the
macd operation fails with InvalidParameters whenever fastPeriod ≥
slowPeriod. -/
theorem macd_no_period_check :
    isOkE (macd [("close", [1, 2, 3])] 12 9 9 "close") = true := by decide

/-- C4 (amended): only the MACDStrategy constructor validates the periods —
it fails with InvalidParameters whenever fast_period ≥ slow_period — while
the macd indicator function performs no period validation at all: it
succeeds exactly when the requested column is present in the frame,
whatever the periods are. -/
theorem macd_validation (fast_period slow_period signal_period : ℕ)
    (df : List (String × List ℚ)) (column : String) :
    (slow_period ≤ fast_period →
      mkMACDStrategy fast_period slow_period signal_period =
        Except.error "InvalidParameters") ∧
    (isOkE (macd df fast_period slow_period signal_period column) = true ↔
      (alookup df column).isSome = true) := by
  constructor
  · intro h
    simp [mkMACDStrategy, h]
  · cases hcol : alookup df column <;> simp [macd, hcol, isOkE]

theorem macd_validation_witness :
    mkMACDStrategy 12 9 9 = Except.error "InvalidParameters" :=
  (macd_validation 12 9 9 [] "close").1 (by norm_num)

/-- C1 counterexample: on an empty frame (which vacuously contains the
signal and price columns) simulate raises IndexError when it reads the last
price of the frame, so the claim that simulate completes for every such
frame fails. -/
theorem simulate_empty_raises :
    TradingSimulator.simulate ⟨100000, 100000, [], []⟩ [] "HSI" 1 =
      Except.error "IndexError" := rfl

/-- C1 (amended): for every NON-EMPTY frame that contains the signal column
and a price column, and any signal sequence over it (ledger failures inside
the loop are swallowed by simStep, skipping the date), simulate completes
without raising and returns a result report; on an empty frame it raises
IndexError while reading the last price. -/
theorem simulate_total_of_nonempty (st0 : TradingSimulator) (rows : List SimRow)
    (sym : String) (quantity : ℚ) (h : rows ≠ []) :
    ∃ r, st0.simulate rows sym quantity = Except.ok r := by
  have hs : rows.getLast?.isSome := List.getLast?_isSome.mpr h
  obtain ⟨lastRow, hlr⟩ := Option.isSome_iff_exists.mp hs
  simp only [TradingSimulator.simulate, hlr]
  exact ⟨_, rfl⟩

theorem simulate_total_witness :
    isOkE (TradingSimulator.simulate ⟨100000, 100000, [], []⟩
      [⟨20000, "BUY"⟩, ⟨21500, "SELL"⟩] "HSI" 1) = true := by
  obtain ⟨r, hr⟩ := simulate_total_of_nonempty ⟨100000, 100000, [], []⟩
    [⟨20000, "BUY"⟩, ⟨21500, "SELL"⟩] "HSI" 1 (by simp)
  rw [hr]
  rfl

lemma alookup_addPos (ps : List (String × ℚ)) (sym : String) (q : ℚ) :
    alookup (addPos ps sym q) sym = some (((alookup ps sym).getD 0) + q) := by
  induction ps with
  | nil => simp [addPos, alookup]
  | cons kv rest ih =>
      obtain ⟨k, v⟩ := kv
      by_cases hk : k = sym
      · simp [addPos, alookup, hk]
      · simp [addPos, alookup, hk, ih]

lemma alookup_eq_none_of_not_mem (ps : List (String × ℚ)) (sym : String)
    (h : sym ∉ ps.map Prod.fst) : alookup ps sym = none := by
  induction ps with
  | nil => rfl
  | cons kv rest ih =>
      obtain ⟨k, v⟩ := kv
      simp only [List.map_cons, List.mem_cons] at h
      push_neg at h
      rw [alookup, if_neg (fun hh => h.1 hh.symm)]
      exact ih h.2

lemma alookup_subPos_addPos (ps : List (String × ℚ)) (sym : String) (q : ℚ)
    (hnd : (ps.map Prod.fst).Nodup) :
    alookup (subPos (addPos ps sym q) sym q) sym =
      (match alookup ps sym with
       | none => none
       | some h => if h = 0 then none else some h) := by
  induction ps with
  | nil => simp [addPos, subPos, alookup]
  | cons kv rest ih =>
      obtain ⟨k, v⟩ := kv
      rw [List.map_cons, List.nodup_cons] at hnd
      by_cases hk : k = sym
      · subst hk
        have hvq : v + q - q = v := by ring
        by_cases hv : v = 0
        · simp [addPos, subPos, alookup, hvq, hv,
            alookup_eq_none_of_not_mem rest k hnd.1]
        · simp [addPos, subPos, alookup, hvq, hv]
      · simp [addPos, subPos, alookup, hk, ih hnd.2]

/-- C9 (amended): for every simulator state whose positions form a valid
dict (distinct keys) and hold a nonnegative (or no) prior quantity of the
symbol, a successful buy(symbol, price, quantity) followed immediately by
sell(symbol, price, quantity) succeeds, restores cash exactly to its value
before the buy, and leaves the symbol's holding entry exactly as it was
before the buy — in particular the entry is deleted exactly when the prior
quantity was zero or the symbol was not held at all (a previously held
symbol keeps its prior entry, which the original claim overlooked). -/
theorem buy_sell_roundtrip (st : TradingSimulator) (sym : String) (p q : ℚ)
    (s1 : TradingSimulator)
    (hnd : (st.positions.map Prod.fst).Nodup)
    (hbuy : st.buy sym p q = Except.ok s1)
    (hprior : 0 ≤ (alookup st.positions sym).getD 0) :
    ∃ s2, s1.sell sym p q = Except.ok s2 ∧ s2.cash = st.cash ∧
      alookup s2.positions sym =
        (match alookup st.positions sym with
         | none => none
         | some h => if h = 0 then none else some h) := by
  unfold TradingSimulator.buy at hbuy
  by_cases hc : st.cash < p * q
  · simp [hc] at hbuy
  · simp only [hc, if_false, Except.ok.injEq] at hbuy
    subst hbuy
    unfold TradingSimulator.sell
    rw [alookup_addPos st.positions sym q]
    have hheld : ¬ ((alookup st.positions sym).getD 0 + q < q) := by
      intro hlt
      have : (alookup st.positions sym).getD 0 < 0 := by linarith
      linarith
    simp only [hheld, if_false]
    refine ⟨_, rfl, by ring_nf, ?_⟩
    exact alookup_subPos_addPos st.positions sym q hnd

theorem buy_sell_roundtrip_witness :
    ∃ s2, (⟨100, 94, [("HSI", 3)], [⟨Side.buy, "HSI", 2, 3, 6, 94⟩]⟩ :
        TradingSimulator).sell "HSI" 2 3 = Except.ok s2 ∧ s2.cash = 100 ∧
      alookup s2.positions "HSI" =
        (match alookup ([] : List (String × ℚ)) "HSI" with
         | none => none
         | some h => if h = 0 then none else some h) :=
  buy_sell_roundtrip ⟨100, 100, [], []⟩ "HSI" 2 3
    ⟨100, 94, [("HSI", 3)], [⟨Side.buy, "HSI", 2, 3, 6, 94⟩]⟩
    (by simp) (by norm_num [TradingSimulator.buy, addPos]) (by decide)

/-- C9 counterexample: from a state already holding one unit of HSI, a
successful buy of three units followed by a sell of the same three units at
the same price does restore cash, but the holding entry is NOT removed: the
prior single unit remains, refuting the claim that the round trip removes
the symbol's holding entry entirely for every state in which the buy
succeeds. -/
theorem buy_sell_roundtrip_entry_remains :
    (⟨100, 100, [("HSI", 1)], []⟩ : TradingSimulator).buy "HSI" 2 3 =
      Except.ok ⟨100, 94, [("HSI", 4)], [⟨Side.buy, "HSI", 2, 3, 6, 94⟩]⟩ ∧
    (⟨100, 94, [("HSI", 4)], [⟨Side.buy, "HSI", 2, 3, 6, 94⟩]⟩ :
        TradingSimulator).sell "HSI" 2 3 =
      Except.ok ⟨100, 100, [("HSI", 1)],
        [⟨Side.buy, "HSI", 2, 3, 6, 94⟩, ⟨Side.sell, "HSI", 2, 3, 6, 100⟩]⟩ ∧
    alookup [("HSI", (1 : ℚ))] "HSI" ≠ none := by
  refine ⟨?_, ?_, by decide⟩
  · norm_num [TradingSimulator.buy, addPos]
  · norm_num [TradingSimulator.sell, subPos, alookup]

lemma positionStep_toInt (p : Position) (s : Signal) :
    positionStep p.toInt s.toInt = (specPositionStep p s).toInt := by
  cases p <;> cases s <;> decide

lemma positionScan_eq_spec (sigs : List Signal) (p : Position) :
    positionScan p.toInt (sigs.map Signal.toInt) =
      (specPositionScan p sigs).map Position.toInt := by
  induction sigs generalizing p with
  | nil => rfl
  | cons s rest ih =>
      simp only [List.map_cons, positionScan, specPositionScan,
        positionStep_toInt, ih (specPositionStep p s)]

lemma positionScan_hold (ss : List ℤ) (pos : ℤ) (i : ℕ)
    (h : ss[i]? = some 0) :
    (positionScan pos ss)[i]? = (pos :: positionScan pos ss)[i]? := by
  induction ss generalizing pos i with
  | nil => simp at h
  | cons s rest ih =>
      cases i with
      | zero =>
          simp only [List.getElem?_cons_zero, Option.some.injEq] at h
          subst h
          have hstep : positionStep pos 0 = pos := by
            simp [positionStep]
          simp [positionScan, hstep]
      | succ j =>
          simp only [List.getElem?_cons_succ] at h
          simp only [positionScan, List.getElem?_cons_succ]
          exact ih (positionStep pos s) j h

/-- C5: generate_position equals the left-to-right scan of the spec state
machine started at Flat (under the source integer encoding 1/0/−1 of
positions and signals): Buy while Flat or Short moves to Long, Buy while
Long is a no-op, Sell while Flat or Long moves directly to Short, Sell
while Short is a no-op, Hold carries the position forward — and hence the
position never changes on a date whose signal is Hold (taking the value
before the first date to be the initial 0). -/
theorem generate_position_spec (sigs : List Signal) :
    generate_position (sigs.map Signal.toInt) =
      (specPositionScan Position.flat sigs).map Position.toInt ∧
    ∀ i : ℕ, sigs[i]? = some Signal.holdSig →
      (generate_position (sigs.map Signal.toInt))[i]? =
        ((0 : ℤ) :: generate_position (sigs.map Signal.toInt))[i]? := by
  constructor
  · exact positionScan_eq_spec sigs Position.flat
  · intro i h
    apply positionScan_hold
    rw [List.getElem?_map, h]
    rfl

theorem generate_position_spec_witness :
    (generate_position ([Signal.buySig, Signal.holdSig].map Signal.toInt) =
      (specPositionScan Position.flat [Signal.buySig, Signal.holdSig]).map
        Position.toInt) ∧
    (generate_position ([Signal.buySig, Signal.holdSig].map Signal.toInt))[1]? =
      ((0 : ℤ) :: generate_position
        ([Signal.buySig, Signal.holdSig].map Signal.toInt))[1]? := by
  obtain ⟨h1, h2⟩ := generate_position_spec [Signal.buySig, Signal.holdSig]
  exact ⟨h1, h2 1 (by decide)⟩

lemma emaRec_length (a prev : ℚ) (xs : List ℚ) :
    (emaRec a prev xs).length = xs.length := by
  induction xs generalizing prev with
  | nil => rfl
  | cons x rest ih => simp [emaRec, ih]

lemma emaRec_getElem (a : ℚ) (xs : List ℚ) (prev : ℚ) (t : ℕ) (va vb : ℚ)
    (ha : (prev :: emaRec a prev xs)[t]? = some va)
    (hb : xs[t]? = some vb) :
    (prev :: emaRec a prev xs)[t + 1]? = some (a * vb + (1 - a) * va) := by
  induction xs generalizing prev t with
  | nil => simp at hb
  | cons x rest ih =>
      cases t with
      | zero =>
          simp only [List.getElem?_cons_zero, Option.some.injEq] at ha hb
          subst ha
          subst hb
          simp [emaRec]
      | succ j =>
          simp only [List.getElem?_cons_succ] at ha hb
          have ha' : ((a * x + (1 - a) * prev) ::
              emaRec a (a * x + (1 - a) * prev) rest)[j]? = some va := by
            simpa [emaRec] using ha
          have := ih (a * x + (1 - a) * prev) j ha' hb
          simpa [emaRec] using this

/-- C8: for every non-empty price series and every period, calculate_ema
satisfies the recursion with smoothing factor 2/(period+1): the first output
equals the first value (no initial-SMA seeding) and each later output is
alpha · value + (1 − alpha) · previous output. -/
theorem ema_recursion_spec (prices : List ℚ) (period : ℕ) (hne : prices ≠ []) :
    (calculate_ema prices period)[0]? = prices[0]? ∧
    ∀ (t : ℕ) (va vb : ℚ), (calculate_ema prices period)[t]? = some va →
      prices[t + 1]? = some vb →
      (calculate_ema prices period)[t + 1]? =
        some ((2 / ((period : ℚ) + 1)) * vb +
          (1 - 2 / ((period : ℚ) + 1)) * va) := by
  match prices, hne with
  | x :: xs, _ =>
    constructor
    · simp [calculate_ema, ewmMean]
    · intro t va vb ha hb
      have hb' : xs[t]? = some vb := by simpa using hb
      have := emaRec_getElem (2 / ((period : ℚ) + 1)) xs x t va vb
        (by simpa [calculate_ema, ewmMean] using ha) hb'
      simpa [calculate_ema, ewmMean] using this

theorem ema_recursion_witness :
    (calculate_ema [1, 2] 3)[1]? =
      some ((2 / ((3 : ℚ) + 1)) * 2 + (1 - 2 / ((3 : ℚ) + 1)) * 1) :=
  (ema_recursion_spec [1, 2] 3 (by simp)).2 0 1 2 (by decide) (by decide)

lemma countP_range_lt (n p : ℕ) :
    ((List.range n).countP (fun i => decide (i + 1 < p))) = min (p - 1) n := by
  induction n with
  | zero => simp
  | succ m ih =>
      rw [List.range_succ, List.countP_append, ih]
      simp only [List.countP_cons, List.countP_nil, decide_eq_true_eq]
      by_cases h : m + 1 < p
      · rw [if_pos h]
        omega
      · rw [if_neg h]
        omega

/-- C7: for every price series of length n and period p with 1 ≤ p ≤ n, the
sma output and the ema output both have length n; the sma output has exactly
p − 1 undefined (NaN) leading cells: the cell at index i is undefined exactly
while i + 1 < p, and at every later index it is the arithmetic mean of the
trailing window, which then consists of exactly p points; the ema output
carries a defined rational at every index by construction (no warm-up). -/
theorem sma_ema_shape (prices : List ℚ) (period : ℕ)
    (h1 : 1 ≤ period) (h2 : period ≤ prices.length) :
    (calculate_sma prices period).length = prices.length ∧
    (calculate_ema prices period).length = prices.length ∧
    ((calculate_sma prices period).countP (fun o => o.isNone)) = period - 1 ∧
    (∀ i : ℕ, i + 1 < period → (calculate_sma prices period)[i]? = some none) ∧
    (∀ i : ℕ, period ≤ i + 1 → i < prices.length →
      (calculate_sma prices period)[i]? =
        some (some (listMean (windowAt prices period i))) ∧
      (windowAt prices period i).length = period) := by
  refine ⟨by simp [calculate_sma], ?_, ?_, ?_, ?_⟩
  · cases prices with
    | nil => rfl
    | cons x xs => simp [calculate_ema, ewmMean, emaRec_length]
  · rw [calculate_sma, List.countP_map]
    have hcong : ((fun o => Option.isNone o) ∘ fun i =>
        if i + 1 < period then none
        else some (listMean (windowAt prices period i))) =
        fun i => decide (i + 1 < period) := by
      funext i
      by_cases h : i + 1 < period <;> simp [h]
    rw [hcong, countP_range_lt]
    omega
  · intro i hi
    have hilen : i < prices.length := by omega
    simp [calculate_sma, List.getElem?_map, List.getElem?_range, hilen, hi]
  · intro i hip hilen
    have hnot : ¬ (i + 1 < period) := by omega
    constructor
    · simp [calculate_sma, List.getElem?_map, List.getElem?_range, hilen, hnot]
    · simp only [windowAt, List.length_drop, List.length_take]
      omega

theorem sma_ema_shape_witness :
    (calculate_sma [1, 2, 3] 2).length = 3 ∧
    (calculate_ema [1, 2, 3] 2).length = 3 ∧
    ((calculate_sma [1, 2, 3] 2).countP (fun o => o.isNone)) = 1 ∧
    (calculate_sma [1, 2, 3] 2)[0]? = some none ∧
    (calculate_sma [1, 2, 3] 2)[2]? =
      some (some (listMean (windowAt [1, 2, 3] 2 2))) := by
  obtain ⟨ha, hb, hc, hd, he⟩ := sma_ema_shape [1, 2, 3] 2 (by norm_num) (by norm_num)
  exact ⟨by simpa using ha, by simpa using hb, hc,
    hd 0 (by norm_num), (he 2 (by norm_num) (by norm_num)).1⟩

lemma oltZ_eq_true (o : Option ℚ) : oltZ o = true ↔ ∃ a, o = some a ∧ a < 0 := by
  cases o <;> simp [oltZ]

lemma ogtZ_eq_true (o : Option ℚ) : ogtZ o = true ↔ ∃ a, o = some a ∧ 0 < a := by
  cases o <;> simp [ogtZ]

lemma colAt_lt_length {xs : List (Option ℚ)} {t : ℕ} {b : ℚ}
    (h : colAt xs t = some b) : t < xs.length := by
  rw [colAt, Option.join_eq_some] at h
  exact (List.getElem?_eq_some.mp h).1

lemma diffSeries_self (l : List (Option ℚ)) (t : ℕ) :
    colAt (diffSeries l l) t = none ∨ colAt (diffSeries l l) t = some 0 := by
  induction l generalizing t with
  | nil => left; rfl
  | cons x rest ih =>
      cases t with
      | zero =>
          cases x with
          | none => left; simp [diffSeries, colAt]
          | some v => right; simp [diffSeries, colAt]
      | succ j =>
          have := ih j
          simpa [diffSeries, colAt] using this

lemma mem_detectCrossovers (fast slow : List (Option ℚ)) (t : ℕ) (ty : CrossType) :
    ((t, ty) ∈ detectCrossovers fast slow) ↔
      ∃ a b, prevAt (diffSeries fast slow) t = some a ∧
        colAt (diffSeries fast slow) t = some b ∧
        ((ty = CrossType.golden ∧ a < 0 ∧ 0 < b) ∨
         (ty = CrossType.death ∧ 0 < a ∧ b < 0)) := by
  simp only [detectCrossovers]
  constructor
  · intro hmem
    obtain ⟨t', _, hf⟩ := List.mem_filterMap.mp hmem
    by_cases h1 : oltZ (prevAt (diffSeries fast slow) t') &&
        ogtZ (colAt (diffSeries fast slow) t')
    · rw [if_pos h1] at hf
      rw [Bool.and_eq_true] at h1
      obtain ⟨h1a, h1b⟩ := h1
      obtain ⟨a, hpa, ha⟩ := (oltZ_eq_true _).mp h1a
      obtain ⟨b, hcb, hb⟩ := (ogtZ_eq_true _).mp h1b
      obtain ⟨rfl, rfl⟩ : t' = t ∧ CrossType.golden = ty := by
        simpa using hf
      exact ⟨a, b, hpa, hcb, Or.inl ⟨rfl, ha, hb⟩⟩
    · rw [if_neg h1] at hf
      by_cases h2 : ogtZ (prevAt (diffSeries fast slow) t') &&
          oltZ (colAt (diffSeries fast slow) t')
      · rw [if_pos h2] at hf
        rw [Bool.and_eq_true] at h2
        obtain ⟨h2a, h2b⟩ := h2
        obtain ⟨a, hpa, ha⟩ := (ogtZ_eq_true _).mp h2a
        obtain ⟨b, hcb, hb⟩ := (oltZ_eq_true _).mp h2b
        obtain ⟨rfl, rfl⟩ : t' = t ∧ CrossType.death = ty := by
          simpa using hf
        exact ⟨a, b, hpa, hcb, Or.inr ⟨rfl, ha, hb⟩⟩
      · rw [if_neg h2] at hf
        simp at hf
  · rintro ⟨a, b, hpa, hcb, hcase⟩
    have ht : t < (diffSeries fast slow).length := colAt_lt_length hcb
    apply List.mem_filterMap.mpr
    refine ⟨t, List.mem_range.mpr ht, ?_⟩
    rcases hcase with ⟨rfl, ha, hb⟩ | ⟨rfl, ha, hb⟩
    · rw [if_pos (by
        rw [Bool.and_eq_true]
        exact ⟨(oltZ_eq_true _).mpr ⟨a, hpa, ha⟩,
          (ogtZ_eq_true _).mpr ⟨b, hcb, hb⟩⟩)]
    · have hnot : ¬ ((oltZ (prevAt (diffSeries fast slow) t) &&
          ogtZ (colAt (diffSeries fast slow) t)) = true) := by
        rw [Bool.and_eq_true]
        rintro ⟨h1a, _⟩
        obtain ⟨a', hpa', ha'⟩ := (oltZ_eq_true _).mp h1a
        rw [hpa] at hpa'
        have haa : a = a' := by injection hpa'
        subst haa
        linarith
      rw [if_neg hnot, if_pos (by
        rw [Bool.and_eq_true]
        exact ⟨(ogtZ_eq_true _).mpr ⟨a, hpa, ha⟩,
          (oltZ_eq_true _).mpr ⟨b, hcb, hb⟩⟩)]

/-- C6: crossover detection reports a crossover at t exactly when the
shifted difference and the current difference are both defined, both
non-zero and of opposite signs — golden for negative to positive, death for
positive to negative — so exact equality (difference zero or NaN) at either
index is never a crossover; identical fast and slow series produce an empty
event list; and the event list is chronologically ordered. -/
theorem detectCrossovers_spec (fast slow : List (Option ℚ)) :
    (∀ t : ℕ, ((t, CrossType.golden) ∈ detectCrossovers fast slow ↔
      ∃ a b, prevAt (diffSeries fast slow) t = some a ∧
        colAt (diffSeries fast slow) t = some b ∧ a < 0 ∧ 0 < b)) ∧
    (∀ t : ℕ, ((t, CrossType.death) ∈ detectCrossovers fast slow ↔
      ∃ a b, prevAt (diffSeries fast slow) t = some a ∧
        colAt (diffSeries fast slow) t = some b ∧ 0 < a ∧ b < 0)) ∧
    detectCrossovers fast fast = [] ∧
    (detectCrossovers fast slow).Pairwise (fun e f => e.1 < f.1) := by
  refine ⟨?_, ?_, ?_, ?_⟩
  · intro t
    rw [mem_detectCrossovers]
    constructor
    · rintro ⟨a, b, hpa, hcb, ⟨_, ha, hb⟩ | ⟨hdead, _, _⟩⟩
      · exact ⟨a, b, hpa, hcb, ha, hb⟩
      · exact absurd hdead (by simp)
    · rintro ⟨a, b, hpa, hcb, ha, hb⟩
      exact ⟨a, b, hpa, hcb, Or.inl ⟨rfl, ha, hb⟩⟩
  · intro t
    rw [mem_detectCrossovers]
    constructor
    · rintro ⟨a, b, hpa, hcb, ⟨hgold, _, _⟩ | ⟨_, ha, hb⟩⟩
      · exact absurd hgold (by simp)
      · exact ⟨a, b, hpa, hcb, ha, hb⟩
    · rintro ⟨a, b, hpa, hcb, ha, hb⟩
      exact ⟨a, b, hpa, hcb, Or.inr ⟨rfl, ha, hb⟩⟩
  · simp only [detectCrossovers]
    rw [List.filterMap_eq_nil_iff]
    intro t _
    have hc : ogtZ (colAt (diffSeries fast fast) t) = false := by
      rcases diffSeries_self fast t with h | h <;> simp [ogtZ, h]
    have hc' : oltZ (colAt (diffSeries fast fast) t) = false := by
      rcases diffSeries_self fast t with h | h <;> simp [oltZ, h]
    simp [hc, hc']
  · simp only [detectCrossovers]
    apply List.Pairwise.filterMap _ ?_ (List.pairwise_lt_range _)
    intro u u' huu' x hx y hy
    have hxu : x.1 = u := by
      split_ifs at hx
      · simp only [Option.mem_def, Option.some.injEq] at hx
        rw [← hx]
      · simp only [Option.mem_def, Option.some.injEq] at hx
        rw [← hx]
      · simp at hx
    have hyu : y.1 = u' := by
      split_ifs at hy
      · simp only [Option.mem_def, Option.some.injEq] at hy
        rw [← hy]
      · simp only [Option.mem_def, Option.some.injEq] at hy
        rw [← hy]
      · simp at hy
    rw [hxu, hyu]
    exact huu'

theorem detectCrossovers_spec_witness :
    (1, CrossType.golden) ∈ detectCrossovers
      [some (-1 : ℚ), some 2] [some 0, some 0] :=
  ((detectCrossovers_spec [some (-1 : ℚ), some 2] [some 0, some 0]).1 1).mpr
    ⟨-1, 2, by norm_num [prevAt, colAt, diffSeries],
      by norm_num [colAt, diffSeries], by norm_num, by norm_num⟩

lemma getElem_range_map {β : Type} (n i : ℕ) (hi : i < n) (f : ℕ → β) :
    ((List.range n).map f)[i]? = some (f i) := by
  rw [List.getElem?_map, List.getElem?_range hi]
  rfl

/-- C3 (amended): bollinger_bands computes upper = middle + std · k and
lower = middle − std · k at every index, and its width output equals
(upper − lower) / middle at every index where middle is a nonzero finite
value; but at an index where middle equals 0 the width is the plain IEEE
quotient — an infinity or NaN, never a finite value (in particular not 0,
which the original claim asserted). -/
theorem bollinger_width_spec (prices : List ℚ) (period : ℕ) (std_dev : ℚ)
    (i : ℕ) (hi : i < prices.length) (m s : ℚ)
    (hm : bbMiddleAt prices period i = .fin m)
    (hs : bbStdAt prices period i = .fin s) :
    (bollinger_bands prices period std_dev).bb_upper[i]? =
      some (.fin (m + s * std_dev)) ∧
    (bollinger_bands prices period std_dev).bb_lower[i]? =
      some (.fin (m - s * std_dev)) ∧
    (m ≠ 0 → (bollinger_bands prices period std_dev).bb_width[i]? =
      some (.fin ((m + s * std_dev - (m - s * std_dev)) / m))) ∧
    (m = 0 → ∀ q : ℚ, (bollinger_bands prices period std_dev).bb_width[i]? ≠
      some (.fin q)) := by
  have hup : bbUpperAt prices period std_dev i = .fin (m + s * std_dev) := by
    rw [bbUpperAt, hm, hs]
    simp [EF.add, EF.mul]
  have hlo : bbLowerAt prices period std_dev i = .fin (m - s * std_dev) := by
    rw [bbLowerAt, hm, hs]
    simp [EF.sub, EF.neg, EF.add, EF.mul]
    ring
  have hsub : EF.sub (bbUpperAt prices period std_dev i)
      (bbLowerAt prices period std_dev i) =
      .fin (m + s * std_dev - (m - s * std_dev)) := by
    rw [hup, hlo]
    simp [EF.sub, EF.neg, EF.add]
    ring
  refine ⟨?_, ?_, ?_, ?_⟩
  · simp only [bollinger_bands]
    rw [getElem_range_map _ _ hi, hup]
  · simp only [bollinger_bands]
    rw [getElem_range_map _ _ hi, hlo]
  · intro hm0
    simp only [bollinger_bands]
    rw [getElem_range_map _ _ hi]
    rw [bbWidthAt, hsub, hm]
    simp [EF.div, hm0]
  · intro hm0 q
    simp only [bollinger_bands]
    rw [getElem_range_map _ _ hi]
    rw [bbWidthAt, hsub, hm, hm0]
    have h2 : m + s * std_dev - (m - s * std_dev) = 2 * (s * std_dev) := by
      ring
    rw [hm0] at h2
    rw [h2]
    simp only [EF.div, if_pos rfl]
    split_ifs <;> simp

lemma sampleVar_example : sampleVar [-1, 0, 1] = 1 := by
  norm_num [sampleVar, listMean]

lemma ratSqrtEF_one : ratSqrtEF 1 = .fin 1 := by
  rw [ratSqrtEF, if_neg (by norm_num)]
  norm_num

lemma bbMiddleAt_example : bbMiddleAt [-1, 0, 1] 3 2 = .fin 0 := by
  rw [bbMiddleAt, if_neg (by norm_num)]
  norm_num [windowAt, listMean]

lemma bbStdAt_example : bbStdAt [-1, 0, 1] 3 2 = .fin 1 := by
  rw [bbStdAt, if_neg (by norm_num)]
  have hw : windowAt [-1, 0, 1] 3 2 = [-1, 0, 1] := rfl
  rw [hw, sampleVar_example, ratSqrtEF_one]

/-- C3 counterexample: on the series [−1, 0, 1] with period 3 and
multiplier 2 the middle band at index 2 is exactly 0 and the width there is
+infinity (the IEEE quotient 4 / 0), not the 0 demanded by the claim. -/
theorem bollinger_width_zero_middle :
    (bollinger_bands [-1, 0, 1] 3 2).bb_middle[2]? = some (EF.fin 0) ∧
    (bollinger_bands [-1, 0, 1] 3 2).bb_width[2]? = some EF.pinf := by
  constructor
  · simp only [bollinger_bands]
    rw [getElem_range_map _ _ (by norm_num), bbMiddleAt_example]
  · simp only [bollinger_bands]
    rw [getElem_range_map _ _ (by norm_num)]
    rw [bbWidthAt, bbUpperAt, bbLowerAt, bbMiddleAt_example, bbStdAt_example]
    have hmul : EF.mul (.fin 1) (.fin 2) = .fin 2 := by
      simp [EF.mul]
    rw [hmul]
    have hup : EF.add (.fin 0) (.fin 2) = .fin 2 := by
      simp [EF.add]
    have hlo : EF.sub (.fin 0) (.fin 2) = .fin (-2) := by
      simp [EF.sub, EF.neg, EF.add]
    rw [hup, hlo]
    have hsub : EF.sub (.fin 2) (.fin (-2)) = .fin 4 := by
      simp [EF.sub, EF.neg, EF.add]
      norm_num
    rw [hsub]
    simp [EF.div]

theorem bollinger_width_spec_witness :
    (bollinger_bands [3, 5, 7] 3 2).bb_upper[2]? =
      some (EF.fin (5 + 2 * 2)) ∧
    (bollinger_bands [3, 5, 7] 3 2).bb_lower[2]? =
      some (EF.fin (5 - 2 * 2)) ∧
    (bollinger_bands [3, 5, 7] 3 2).bb_width[2]? =
      some (EF.fin ((5 + 2 * 2 - (5 - 2 * 2)) / 5)) := by
  have hm : bbMiddleAt [3, 5, 7] 3 2 = .fin 5 := by
    rw [bbMiddleAt, if_neg (by norm_num)]
    norm_num [windowAt, listMean]
  have hv : sampleVar [3, 5, 7] = 4 := by
    norm_num [sampleVar, listMean]
  have hs : bbStdAt [3, 5, 7] 3 2 = .fin 2 := by
    rw [bbStdAt, if_neg (by norm_num)]
    have hw : windowAt [3, 5, 7] 3 2 = [3, 5, 7] := rfl
    rw [hw, hv, ratSqrtEF]
    rw [if_neg (by norm_num)]
    have ht : Int.toNat 4 = 4 := rfl
    have h4 : Nat.sqrt 4 = 2 := by
      have h44 : (4 : ℕ) = 2 * 2 := by norm_num
      rw [h44, Nat.sqrt_eq]
    norm_num [ht, h4]
  obtain ⟨h1, h2, h3, _⟩ :=
    bollinger_width_spec [3, 5, 7] 3 2 2 (by norm_num) 5 2 hm hs
  exact ⟨h1, h2, h3 (by norm_num)⟩

lemma ratSqrtEF_zero : ratSqrtEF 0 = .fin 0 := by
  rw [ratSqrtEF, if_neg (by norm_num)]
  norm_num

lemma ltB_fin_zero_zero : EF.ltB (.fin 0) (.fin 0) = false := by
  simp [EF.ltB]

/-- C2 (amended): evaluate_strategy handles four of the claimed degenerate
cases with well-defined values — an empty table gives the all-zero report, a
single-row table with nonzero capital gives the all-zero report, zero trades
give win_rate 0, and zero variance of strategy_returns gives volatility 0
and sharpe 0 — but the fifth claimed case, zero capital, is NOT guarded (see
the counterexample): the total-return quotient is taken unconditionally. -/
theorem evaluate_strategy_degenerate (rows : List StratRow) :
    (rows = [] → evaluate_strategy rows =
      ⟨.fin 0, .fin 0, .fin 0, 0, 0, .fin 0, .fin 0⟩) ∧
    (∀ r : StratRow, rows = [r] → r.capital ≠ 0 → evaluate_strategy rows =
      ⟨.fin 0, .fin 0, .fin 0, 0, 0, .fin 0, .fin 0⟩) ∧
    ((evaluate_strategy rows).trade_count = 0 →
      (evaluate_strategy rows).win_rate = 0) ∧
    (1 < rows.length → sampleVar (rows.map StratRow.strategy_returns) = 0 →
      (evaluate_strategy rows).volatility = .fin 0 ∧
      (evaluate_strategy rows).sharpe = .fin 0) := by
  refine ⟨?_, ?_, ?_, ?_⟩
  · rintro rfl
    rfl
  · rintro r rfl hc
    have hdiv : EF.div (.fin r.capital) (.fin r.capital) = .fin 1 := by
      simp only [EF.div, if_neg hc]
      rw [div_self hc]
    have hdd : EF.div (.fin 0) (.fin r.capital) = .fin 0 := by
      simp only [EF.div, if_neg hc]
      norm_num
    simp [evaluate_strategy, cummax, cummaxFrom, positionChanges,
      maxEFskipna, hdiv, hdd, EF.sub, EF.neg, EF.add]
  · intro h
    simp only [evaluate_strategy] at h ⊢
    rw [h]
    norm_num
  · intro hlen hvar
    have hsq : ratSqrtEF (sampleVar (rows.map StratRow.strategy_returns) * 252) =
        .fin 0 := by
      rw [hvar]
      have h0 : (0 : ℚ) * 252 = 0 := by norm_num
      rw [h0, ratSqrtEF_zero]
    constructor
    · simp only [evaluate_strategy]
      simp only [hlen, if_true]
      exact hsq
    · simp only [evaluate_strategy]
      simp only [hlen, if_true]
      rw [hsq, ltB_fin_zero_zero]
      simp

/-- C2 counterexample: on the table whose capital column starts at 0 and
ends at 1 (with the required position, returns and strategy_returns columns
present), the total_return field of the report is +infinity — the quotient
1 / 0 minus 1 — so the zero-capital degenerate case does leak a non-finite
value into the report, contradicting the claim. -/
theorem evaluate_strategy_zero_capital :
    (evaluate_strategy [⟨0, 0, 0, 0⟩, ⟨0, 0, 0, 1⟩]).total_return = EF.pinf ∧
    (evaluate_strategy [⟨0, 0, 0, 0⟩, ⟨0, 0, 0, 1⟩]).total_return.isFinite =
      false := by
  have hdiv : EF.div (.fin 1) (.fin 0) = EF.pinf := by
    simp [EF.div]
  have h : (evaluate_strategy [⟨0, 0, 0, 0⟩, ⟨0, 0, 0, 1⟩]).total_return =
      EF.pinf := by
    simp [evaluate_strategy, hdiv, EF.sub, EF.neg, EF.add]
  exact ⟨h, by rw [h]; rfl⟩

theorem evaluate_strategy_degenerate_witness :
    (evaluate_strategy ([] : List StratRow) =
      ⟨.fin 0, .fin 0, .fin 0, 0, 0, .fin 0, .fin 0⟩) ∧
    ((evaluate_strategy [⟨1, 0, 0, 5⟩, ⟨1, 0, 0, 5⟩]).volatility = .fin 0 ∧
      (evaluate_strategy [⟨1, 0, 0, 5⟩, ⟨1, 0, 0, 5⟩]).sharpe = .fin 0) := by
  refine ⟨(evaluate_strategy_degenerate []).1 rfl, ?_⟩
  exact (evaluate_strategy_degenerate [⟨1, 0, 0, 5⟩, ⟨1, 0, 0, 5⟩]).2.2.2
    (by norm_num) (by norm_num [sampleVar, listMean])

end HSIApp
